import Mathlib

/-!
Verification development for the pokemon-adb-bot repository.

The definitions below are a shallow embedding of the search-and-detection
core of the bot, translated from the Python sources:

- progress_tracker.py        (class ProgressTracker)
- test_04_adb_expansions.py  (class ExpansionSearcherADB, traversal plan)
- test_03_adb_find_battles.py (class BattleFinderADB, detection and clustering)
- test_05_adb_full_workflow.py (class RewardBattleBotADB, orchestrator)

Python dictionaries are modelled as association lists over String keys,
Python integers as Int, and the float quantities of the detector (contour
area, bounding-box aspect ratio) as exact rationals; for the integer pixel
inputs the code ever sees, the float comparisons of the source coincide
with the exact rational comparisons used here.
-/

/-! ### ProgressTracker (progress_tracker.py)

The tracker state self.progress is a JSON object mapping string keys
"difficulty_series" to integers.  We embed it as an association list. -/

abbrev Progress := List (String × Int)

/-- dict.get(key, 0): value of the first entry with the given key, 0 if absent. -/
def progressGet (p : Progress) (k : String) : Int :=
  match p with
  | [] => 0
  | e :: rest => if e.1 = k then e.2 else progressGet rest k

/-- Python dict assignment self.progress[key] = v: update the entry in place
when the key is present, append it otherwise. -/
def progressSet (p : Progress) (k : String) (v : Int) : Progress :=
  match p with
  | [] => [(k, v)]
  | e :: rest => if e.1 = k then (k, v) :: rest else e :: progressSet rest k v

/-- ProgressTracker.get_key: f-string difficulty_series. -/
def get_key (difficulty series : String) : String :=
  difficulty ++ "_" ++ series

/-- The fresh-start mapping returned by ProgressTracker.load_progress when no
progress file exists (and written back by reset_progress).  Note that it has
no beginner keys. -/
def default_progress : Progress :=
  [("intermediate_A", 0), ("intermediate_B", 0),
   ("advanced_A", 0), ("advanced_B", 0),
   ("expert_A", 0), ("expert_B", 0)]

/-- ProgressTracker.get_start_position: checked_count + 1. -/
def get_start_position (p : Progress) (difficulty series : String) : Int :=
  progressGet p (get_key difficulty series) + 1

/-- ProgressTracker.mark_checked: updates the key to expansion_num only when
expansion_num == current + 1; the already-marked branch and the
skipped-expansion warning branch both leave the mapping unchanged. -/
def mark_checked (p : Progress) (difficulty series : String) (expansion_num : Int) : Progress :=
  let key := get_key difficulty series
  let current := progressGet p key
  if expansion_num = current + 1 then
    progressSet p key expansion_num
  else
    p

/-- ProgressTracker.is_series_exhausted: checked >= total_expansions. -/
def is_series_exhausted (p : Progress) (difficulty series : String)
    (total_expansions : Int) : Bool :=
  decide (total_expansions ≤ progressGet p (get_key difficulty series))

/-- ProgressTracker.is_difficulty_exhausted: every series of the given counts
dict is exhausted. -/
def is_difficulty_exhausted (p : Progress) (difficulty : String)
    (expansion_counts : List (String × Int)) : Bool :=
  expansion_counts.all (fun e => is_series_exhausted p difficulty e.1 e.2)

/-- The hardcoded expansion counts dict of is_fully_exhausted, also the module
level EXPANSION_COUNTS of test_05_adb_full_workflow.py. -/
def EXPANSION_COUNTS : List (String × Int) := [("A", 11), ("B", 1)]

/-- The difficulty list iterated by ProgressTracker.is_fully_exhausted.  The
source lists only these three difficulties; beginner is absent. -/
def tracker_difficulties : List String := ["intermediate", "advanced", "expert"]

/-- ProgressTracker.is_fully_exhausted. -/
def is_fully_exhausted (p : Progress) : Bool :=
  tracker_difficulties.all (fun d => is_difficulty_exhausted p d EXPANSION_COUNTS)

/-- ProgressTracker.reset_progress: replaces the mapping with the all-zero one. -/
def reset_progress (_p : Progress) : Progress :=
  default_progress

/-- The exhaustion predicate exactly as claim C2 states it: quantified over all
four difficulties of the spec, beginner included.  This definition follows the
words of the claim, to be compared with is_fully_exhausted from the source. -/
def is_fully_exhausted_claimed (p : Progress) : Bool :=
  ["beginner", "intermediate", "advanced", "expert"].all
    (fun d => is_difficulty_exhausted p d EXPANSION_COUNTS)

/-- Folding a sequence of mark_checked calls over one key. -/
def markSeq (p : Progress) (difficulty series : String) (ns : List Int) : Progress :=
  ns.foldl (fun q n => mark_checked q difficulty series n) p

/-! ### Expansion traversal plan (test_04_adb_expansions.py) -/

/-- ExpansionSearcherADB.get_scrolls_for_expansion. -/
def get_scrolls_for_expansion (index : Int) : Int :=
  if index ≤ 2 then 0 else index - 2

/-- ExpansionSearcherADB.get_visible_slot_index.  The returned value is a
0-based index into the expansion_slots list of the coordinate config; the
source docstring reads: first expansion = slot #2 (index 1), second
expansion = slot #3 (index 2), 3+ = bottom slot (index 2). -/
def get_visible_slot_index (expansion_number : Int) : Int :=
  if expansion_number = 1 then 1
  else if expansion_number = 2 then 2
  else 2

/-! ### Reward detection (test_03_adb_find_battles.py) -/

/-- A Detection as produced by find_reward_icons: (center_x, center_y, area),
in full-screen coordinates. -/
abbrev Detection := Int × Int × Int

/-- Vertical coordinate of a detection, tuple position 1 in the source. -/
def detY (p : Detection) : Int := p.2.1

/-- Stable insertion of a detection into a list sorted by vertical
coordinate; together with sortByY below this models the stable Python
sorted(icons, key=lambda p: p[1]). -/
def insertByY (x : Detection) : List Detection → List Detection
  | [] => [x]
  | y :: ys => if detY x ≤ detY y then x :: y :: ys else y :: insertByY x ys

/-- sorted(icons, key=lambda p: p[1]): stable sort by vertical coordinate.
Any two stable sorts agree, so insertion sort is an exact model. -/
def sortByY (l : List Detection) : List Detection := l.foldr insertByY []

/-- current_cluster[-1][1]: vertical coordinate of the last member of the
current cluster.  The default is never reached: every caller keeps the
current cluster non-empty. -/
def clusterLastY (c : List Detection) : Int := detY (c.getLastD (0, 0, 0))

/-- The scanning loop of BattleFinderADB.group_icons_into_battles: walk the
sorted detections, append to the current cluster while the vertical gap to
its last member is below 80, otherwise emit the cluster (kept only when it
has at least two members) and start a new one. -/
def groupLoop : List Detection → List Detection → List (List Detection) → List (List Detection)
  | [], current, clusters =>
      if 2 ≤ current.length then clusters ++ [current] else clusters
  | i :: rest, current, clusters =>
      if (detY i - clusterLastY current).natAbs < 80 then
        groupLoop rest (current ++ [i]) clusters
      else if 2 ≤ current.length then
        groupLoop rest [i] (clusters ++ [current])
      else
        groupLoop rest [i] clusters

/-- BattleFinderADB.group_icons_into_battles. -/
def group_icons_into_battles (icons : List Detection) : List (List Detection) :=
  match sortByY icons with
  | [] => []
  | first :: rest => groupLoop rest [first] []

/-- The clustering pass exactly as claim C6 words it: chunk the sorted list
into consecutive runs whose adjacent vertical gaps are below 80, then keep
only the chunks with at least two members.  This definition follows the
words of the claim, to be compared with group_icons_into_battles. -/
def chunkLoop : List Detection → List Detection → List (List Detection) → List (List Detection)
  | [], current, clusters => clusters ++ [current]
  | i :: rest, current, clusters =>
      if (detY i - clusterLastY current).natAbs < 80 then
        chunkLoop rest (current ++ [i]) clusters
      else
        chunkLoop rest [i] (clusters ++ [current])

/-- Clustering as stated by claim C6: gap rule first, size filter last. -/
def clusters_claimed (icons : List Detection) : List (List Detection) :=
  match sortByY icons with
  | [] => []
  | first :: rest => (chunkLoop rest [first] []).filter (fun c => 2 ≤ c.length)

/-- A click point (x, y) on screen. -/
abbrev Point := Int × Int

/-- Squared Euclidean distance.  The source computes
((x2-x1)**2 + (y2-y1)**2)**0.5 as a float and compares it with 50; for
integer coordinates that comparison is exactly distSq > 2500. -/
def distSq (a b : Point) : Int := (b.1 - a.1) ^ 2 + (b.2 - a.2) ^ 2

/-- BattleFinderADB.verify_detection.  One list entry per attempt of the
retry loop (max_attempts entries, default 2): the outcome of the fresh
find_battle_with_rewards call of that attempt.  A missing candidate or a
candidate farther than 50px from click_pos makes the loop continue; a
candidate within 50px is returned at once; an exhausted loop returns none. -/
def verify_detection (click_pos : Point) : List (Option Point) → Option Point
  | [] => none
  | none :: rest => verify_detection click_pos rest
  | some p :: rest =>
      if 2500 < distSq click_pos p then verify_detection click_pos rest
      else some p

/-- The component filter of BattleFinderADB.find_reward_icons: a connected
component of the combined color mask with contour area a and bounding box
w x h yields a Detection exactly when this returns true.  The source tests
150 < area < 3000, then aspect = w / h if h > 0 else 0 (float division,
exact here as rationals), then 0.5 < aspect < 2.5. -/
def component_yields_detection (area : ℚ) (bw bh : Int) : Bool :=
  if 150 < area ∧ area < 3000 then
    let aspect : ℚ := if 0 < bh then (bw : ℚ) / (bh : ℚ) else 0
    decide (0.5 < aspect ∧ aspect < 2.5)
  else false

/-- The component filter exactly as claim C9 states it: closed intervals,
endpoints kept.  This definition follows the words of the claim, to be
compared with component_yields_detection from the source. -/
def component_yields_detection_claimed (area : ℚ) (bw bh : Int) : Bool :=
  if 150 ≤ area ∧ area ≤ 3000 then
    let aspect : ℚ := if 0 < bh then (bw : ℚ) / (bh : ℚ) else 0
    decide (0.5 ≤ aspect ∧ aspect ≤ 2.5)
  else false

/-! ### Orchestrator (test_05_adb_full_workflow.py, RewardBattleBotADB)

The bot state consists of the progress store, the current difficulty and
series, and last_battle_location (the ResumeLocation of the spec).  The
screen-dependent outcomes of navigation and detection are supplied by an
environment: opens is the outcome of open_visible_expansion for the
expansion reached by navigating to (difficulty, series, ordinal), scan the
outcome of scan_expansion_for_rewards inside it, and quick the outcome of
the single find_battle_with_rewards quick check.  Device taps, sleeps and
prints have no bearing on this state and are not modelled. -/

structure BotState where
  progress : Progress
  current_difficulty : String
  current_series : String
  last_battle_location : Option (String × String × Int)
  deriving DecidableEq

structure Env where
  opens : String → String → Int → Bool
  scan : String → String → Int → Option Point
  quick : Option Point

/-- The per-ordinal loop body of RewardBattleBotADB.scan_series_for_rewards,
iterated by fuel.  For each ordinal: navigate and open the expansion; if the
open fails, mark the ordinal checked and continue; otherwise scan inside; a
found position sets last_battle_location and returns without marking; an
empty scan marks the ordinal checked and continues with the next ordinal. -/
def scanLoop (env : Env) (series_name : String) : BotState → Int → Nat → BotState × Option Point
  | st, _, 0 => (st, none)
  | st, n, fuel + 1 =>
    if env.opens st.current_difficulty series_name n then
      match env.scan st.current_difficulty series_name n with
      | some pos =>
          ({ st with last_battle_location := some (st.current_difficulty, series_name, n) },
           some pos)
      | none =>
          scanLoop env series_name
            { st with progress := mark_checked st.progress st.current_difficulty series_name n }
            (n + 1) fuel
    else
      scanLoop env series_name
        { st with progress := mark_checked st.progress st.current_difficulty series_name n }
        (n + 1) fuel

/-- RewardBattleBotADB.scan_series_for_rewards: start from
get_start_position and walk the ordinals up to expansion_count. -/
def scan_series_for_rewards (env : Env) (series_name : String) (expansion_count : Int)
    (st : BotState) : BotState × Option Point :=
  let start_from := get_start_position st.progress st.current_difficulty series_name
  if expansion_count < start_from then (st, none)
  else scanLoop env series_name st start_from (expansion_count + 1 - start_from).toNat

/-- RewardBattleBotADB.check_difficulty_all_series: both exhaustion flags are
computed up front from EXPANSION_COUNTS (A: 11, B: 1); the A series is
scanned when not exhausted, then the B series. -/
def check_difficulty_all_series (env : Env) (st : BotState) : BotState × Option Point :=
  let aEx := is_series_exhausted st.progress st.current_difficulty "A" 11
  let bEx := is_series_exhausted st.progress st.current_difficulty "B" 1
  if aEx && bEx then (st, none)
  else
    let r1 :=
      if aEx then (st, none)
      else scan_series_for_rewards env "A" 11 { st with current_series := "A" }
    match r1.2 with
    | some pos => (r1.1, some pos)
    | none =>
        if bEx then (r1.1, none)
        else scan_series_for_rewards env "B" 1 { r1.1 with current_series := "B" }

/-- The difficulty order of RewardBattleBotADB.run. -/
def run_difficulties : List String := ["beginner", "intermediate", "advanced", "expert"]

inductive RunResult where
  | found (pos : Point)
  | allChecked
  | nothingFound
  deriving DecidableEq

/-- The difficulty loop of RewardBattleBotADB.run: switch to each difficulty
in turn and check both of its series; a found position starts the battle and
ends the invocation. -/
def difficulty_loop (env : Env) : List String → BotState → BotState × RunResult
  | [], st => (st, .nothingFound)
  | d :: rest, st =>
    let st1 := if d = st.current_difficulty then st else { st with current_difficulty := d }
    let r := check_difficulty_all_series env st1
    match r.2 with
    | some pos => (r.1, .found pos)
    | none => difficulty_loop env rest r.1

/-- The part of RewardBattleBotADB.run after the resume block: the
is_fully_exhausted early return, the quick check of the current screen, and
the difficulty loop.  When resuming, the loop starts from the current
difficulty (difficulties.index plus slicing, rendered here as dropWhile). -/
def run_main (env : Env) (resume_from_battle : Bool) (st : BotState) : BotState × RunResult :=
  if is_fully_exhausted st.progress then (st, .allChecked)
  else
    match env.quick with
    | some pos => (st, .found pos)
    | none =>
        let ds := if resume_from_battle then
            run_difficulties.dropWhile (fun d => ¬ d = st.current_difficulty)
          else run_difficulties
        difficulty_loop env ds st

/-- The resume block of RewardBattleBotADB.run: sync the difficulty and
series to the saved location, reopen exactly that expansion and scan it.  A
found position is engaged and returned with last_battle_location still set;
an empty scan marks the expansion checked; in either no-find case
last_battle_location is cleared. -/
def resume_phase (env : Env) (st : BotState) (d s : String) (e : Int) :
    BotState × Option Point :=
  let st1 := if st.current_difficulty = d then st else { st with current_difficulty := d }
  let st2 := { st1 with current_series := s }
  if env.opens d s e then
    match env.scan d s e with
    | some pos => (st2, some pos)
    | none =>
        ({ st2 with
            progress := mark_checked st2.progress d s e,
            last_battle_location := none }, none)
  else
    ({ st2 with last_battle_location := none }, none)

/-- RewardBattleBotADB.run.  The resume block runs only when the caller asks
to resume and a last_battle_location is saved (bot_infinite_loop.py passes
resume_from_battle := true on every cycle after the first). -/
def run (env : Env) (resume_from_battle : Bool) (st : BotState) : BotState × RunResult :=
  match resume_from_battle, st.last_battle_location with
  | true, some (d, s, e) =>
    let r := resume_phase env st d s e
    match r.2 with
    | some pos => (r.1, .found pos)
    | none => run_main env true r.1
  | true, none => run_main env true st
  | false, _ => run_main env false st

/-! ### Invariants (claim C8) -/

/-- Every A key is within the A catalog total and every B key within the B
catalog total. -/
def progressBounded (p : Progress) : Prop :=
  ∀ d : String, progressGet p (get_key d "A") ≤ 11 ∧ progressGet p (get_key d "B") ≤ 1

/-- A saved resume location points at an ordinal inside the catalog of its
series. -/
def locationOk (l : Option (String × String × Int)) : Prop :=
  ∀ d s e, l = some (d, s, e) → (s = "A" ∧ e ≤ 11) ∨ (s = "B" ∧ e ≤ 1)

/-- The reachable-state invariant of the traversal. -/
def stateBounded (st : BotState) : Prop :=
  progressBounded st.progress ∧ locationOk st.last_battle_location

/-- A concrete environment used by witnesses: every expansion opens, every
scan finds a candidate at (5, 6), the quick check finds nothing. -/
def envFind : Env :=
  { opens := fun _ _ _ => true, scan := fun _ _ _ => some (5, 6), quick := none }

/-- A concrete environment used by witnesses: every expansion opens and no
scan ever finds anything. -/
def envEmpty : Env :=
  { opens := fun _ _ _ => true, scan := fun _ _ _ => none, quick := none }

/-- A concrete bot state used by witnesses: empty store, fresh session. -/
def stFresh : BotState :=
  { progress := [], current_difficulty := "beginner", current_series := "A",
    last_battle_location := none }

/-- A concrete bot state used by witnesses: a saved resume location at
expert B expansion 1. -/
def stResume : BotState :=
  { progress := default_progress, current_difficulty := "beginner", current_series := "A",
    last_battle_location := some ("expert", "B", 1) }

/-! ## Helper lemmas about the progress store -/

theorem progressGet_set_self (p : Progress) (k : String) (v : Int) :
    progressGet (progressSet p k v) k = v := by
  induction p with
  | nil => simp [progressGet, progressSet]
  | cons e rest ih =>
    by_cases he : e.1 = k
    · simp [progressGet, progressSet, he]
    · simp [progressGet, progressSet, he, ih]

theorem progressGet_set_other (p : Progress) (k k' : String) (v : Int) (hne : k' ≠ k) :
    progressGet (progressSet p k v) k' = progressGet p k' := by
  induction p with
  | nil => simp [progressGet, progressSet, Ne.symm hne]
  | cons e rest ih =>
    by_cases he : e.1 = k
    · simp [progressGet, progressSet, he, Ne.symm hne]
    · by_cases he' : e.1 = k'
      · simp [progressGet, progressSet, he, he', hne]
      · simp [progressGet, progressSet, he, he', ih]

theorem progressGet_of_not_mem (p : Progress) (k : String)
    (h : ∀ e ∈ p, e.1 ≠ k) : progressGet p k = 0 := by
  induction p with
  | nil => rfl
  | cons e rest ih =>
    have hne : e.1 ≠ k := h e (by simp)
    simp [progressGet, hne, ih (fun x hx => h x (by simp [hx]))]

theorem mark_checked_get_self (p : Progress) (d s : String) (n : Int) :
    progressGet (mark_checked p d s n) (get_key d s) =
      if n = progressGet p (get_key d s) + 1 then n else progressGet p (get_key d s) := by
  by_cases h : n = progressGet p (get_key d s) + 1
  · simp [mark_checked, h, progressGet_set_self]
  · simp [mark_checked, h]

theorem mark_checked_get_other (p : Progress) (d s : String) (n : Int) (k : String)
    (hk : k ≠ get_key d s) :
    progressGet (mark_checked p d s n) k = progressGet p k := by
  by_cases h : n = progressGet p (get_key d s) + 1
  · simp [mark_checked, h, progressGet_set_other _ _ _ _ hk]
  · simp [mark_checked, h]

theorem mark_checked_noop (p : Progress) (d s : String) (n : Int)
    (h : n ≠ progressGet p (get_key d s) + 1) : mark_checked p d s n = p := by
  simp [mark_checked, h]

theorem mark_checked_mono (p : Progress) (d s : String) (n : Int) (k : String) :
    progressGet p k ≤ progressGet (mark_checked p d s n) k := by
  by_cases hk : k = get_key d s
  · subst hk
    rw [mark_checked_get_self]
    split
    · omega
    · exact le_refl _
  · rw [mark_checked_get_other _ _ _ _ _ hk]

/-! ## Claim C1 -/

/-- Claim C1 counterexample: the claim says a forward jump is allowed, so
that after mark_checked(d, s, 5) from checked_count = 0 the next start
position is 6.  In the source a jump past current + 1 is the warning branch
and a no-op: the store is unchanged and get_start_position still returns 1. -/
theorem C1_counterexample :
    mark_checked default_progress "intermediate" "A" 5 = default_progress ∧
    get_start_position (mark_checked default_progress "intermediate" "A" 5)
      "intermediate" "A" = 1 ∧
    (1 : Int) ≠ 6 := by decide

/-- Claim C1 (corrected): mark_checked(difficulty, series, n) updates the
stored checked_count to n exactly when n equals checked_count + 1 (strict
sequential marking); every other n, smaller, equal or a forward jump, is a
no-op.  In particular from checked_count = 0 marking 1, 2, 3, 4, 5 in order
yields get_start_position = 6, and a subsequent mark_checked(d, s, 3) leaves
the store at 5. -/
theorem C1_mark_checked_sequential :
    (∀ (p : Progress) (d s : String) (n : Int),
      (n = progressGet p (get_key d s) + 1 →
        progressGet (mark_checked p d s n) (get_key d s) = n) ∧
      (n ≠ progressGet p (get_key d s) + 1 → mark_checked p d s n = p)) ∧
    get_start_position (markSeq default_progress "intermediate" "A" [1, 2, 3, 4, 5])
      "intermediate" "A" = 6 ∧
    mark_checked (markSeq default_progress "intermediate" "A" [1, 2, 3, 4, 5])
      "intermediate" "A" 3 =
      markSeq default_progress "intermediate" "A" [1, 2, 3, 4, 5] := by
  refine ⟨fun p d s n => ⟨fun h => ?_, fun h => mark_checked_noop p d s n h⟩, by decide, by decide⟩
  rw [mark_checked_get_self, if_pos h]

/-- Witness for C1: the sequential branch and the no-op branch at concrete
inputs. -/
theorem C1_mark_checked_sequential_witness :
    progressGet (mark_checked default_progress "intermediate" "A" 1)
      (get_key "intermediate" "A") = 1 ∧
    mark_checked default_progress "intermediate" "A" 7 = default_progress :=
  ⟨(C1_mark_checked_sequential.1 default_progress "intermediate" "A" 1).1 (by decide),
   (C1_mark_checked_sequential.1 default_progress "intermediate" "A" 7).2 (by decide)⟩

/-! ## Claim C2 -/

/-- Claim C2 counterexample: a store in which intermediate, advanced and
expert are all at their catalog totals while every beginner key is absent
(hence 0).  The source reports it fully exhausted, the claim, which also
quantifies over beginner, does not. -/
theorem C2_counterexample :
    is_fully_exhausted
      [("intermediate_A", 11), ("intermediate_B", 1), ("advanced_A", 11),
       ("advanced_B", 1), ("expert_A", 11), ("expert_B", 1)] = true ∧
    is_fully_exhausted_claimed
      [("intermediate_A", 11), ("intermediate_B", 1), ("advanced_A", 11),
       ("advanced_B", 1), ("expert_A", 11), ("expert_B", 1)] = false := by decide

/-- Claim C2 (corrected): is_fully_exhausted returns true iff for every
difficulty in the fixed list intermediate, advanced, expert (beginner is not
in the list the source iterates) and every series of the catalog, the stored
checked_count is at least the catalog total of that series. -/
theorem C2_fully_exhausted_three_difficulties (p : Progress) :
    is_fully_exhausted p = true ↔
      ∀ d ∈ tracker_difficulties, ∀ e ∈ EXPANSION_COUNTS,
        e.2 ≤ progressGet p (get_key d e.1) := by
  simp [is_fully_exhausted, is_difficulty_exhausted, is_series_exhausted, List.all_eq_true]

/-! ## Claim C3 -/

/-- Claim C3 counterexample: the claim maps ordinal 1 to visible slot 1
(min(1, 3) with 1-indexed slots).  The source maps ordinal 1 to slot index 1,
that is the second visible slot: its own docstring reads first expansion =
slot #2 (index 1). -/
theorem C3_counterexample :
    get_visible_slot_index 1 = 1 ∧
    get_visible_slot_index 1 + 1 = 2 ∧
    min (1 : Int) 3 = 1 ∧
    (2 : Int) ≠ 1 := by decide

/-- Claim C3 (corrected): for every ordinal n >= 1 the plan is
scrolls(n) = max(0, n-2), and the clicked 1-indexed visible slot is
min(n+1, 3), one below the claimed min(n, 3): ordinals 1 and 2 map to
visible slots 2 and 3, and every n >= 3 takes n-2 scroll gestures and maps
to the bottom-most (third) visible slot. -/
theorem C3_traversal_plan (n : Int) (h : 1 ≤ n) :
    get_scrolls_for_expansion n = max 0 (n - 2) ∧
    get_visible_slot_index n + 1 = min (n + 1) 3 ∧
    (3 ≤ n → get_scrolls_for_expansion n = n - 2 ∧ get_visible_slot_index n = 2) := by
  unfold get_scrolls_for_expansion get_visible_slot_index
  refine ⟨?_, ?_, fun h3 => ⟨?_, ?_⟩⟩ <;> split_ifs <;> omega

/-- Witness for C3 at n = 4. -/
theorem C3_traversal_plan_witness :
    (1 : Int) ≤ 4 ∧
    (get_scrolls_for_expansion 4 = max 0 (4 - 2) ∧
     get_visible_slot_index 4 + 1 = min (4 + 1) 3 ∧
     ((3 : Int) ≤ 4 → get_scrolls_for_expansion 4 = 4 - 2 ∧ get_visible_slot_index 4 = 2)) :=
  ⟨by decide, C3_traversal_plan 4 (by decide)⟩

/-! ## Claim C10 -/

/-- Claim C10: every store operation treats a missing key as
checked_count = 0 and is total (the embedding is total by construction, as
the source uses dict.get with default 0): get_start_position returns 1,
is_series_exhausted is true exactly when the total is at most 0, and
mark_checked(d, s, 1) creates the key with value 1.  The fresh default
mapping omits every beginner key. -/
theorem C10_missing_key_total (p : Progress) (d s : String) (total : Int)
    (habs : ∀ e ∈ p, e.1 ≠ get_key d s) :
    get_start_position p d s = 1 ∧
    (is_series_exhausted p d s total = true ↔ total ≤ 0) ∧
    progressGet (mark_checked p d s 1) (get_key d s) = 1 ∧
    (∀ e ∈ default_progress, e.1 ≠ get_key "beginner" "A") ∧
    (∀ e ∈ default_progress, e.1 ≠ get_key "beginner" "B") := by
  have h0 := progressGet_of_not_mem p _ habs
  refine ⟨?_, ?_, ?_, by decide, by decide⟩
  · simp [get_start_position, h0]
  · simp [is_series_exhausted, h0]
  · rw [mark_checked_get_self, h0]
    simp

/-- Witness for C10: the beginner A key, absent from the default store. -/
theorem C10_missing_key_total_witness :
    get_start_position default_progress "beginner" "A" = 1 ∧
    (is_series_exhausted default_progress "beginner" "A" 11 = true ↔ (11 : Int) ≤ 0) ∧
    progressGet (mark_checked default_progress "beginner" "A" 1)
      (get_key "beginner" "A") = 1 ∧
    (∀ e ∈ default_progress, e.1 ≠ get_key "beginner" "A") ∧
    (∀ e ∈ default_progress, e.1 ≠ get_key "beginner" "B") :=
  C10_missing_key_total default_progress "beginner" "A" 11 (by decide)

/-! ## Claim C6 -/

theorem chunkLoop_acc (rest : List Detection) :
    ∀ current clusters, chunkLoop rest current clusters = clusters ++ chunkLoop rest current [] := by
  induction rest with
  | nil => intro current clusters; simp [chunkLoop]
  | cons i r ih =>
    intro current clusters
    by_cases hgap : (detY i - clusterLastY current).natAbs < 80
    · simp only [chunkLoop, if_pos hgap]
      exact ih _ _
    · simp only [chunkLoop, if_neg hgap]
      rw [ih [i] (clusters ++ [current]), ih [i] ([] ++ [current])]
      simp

theorem groupLoop_eq_filter_chunk (rest : List Detection) :
    ∀ current clusters, groupLoop rest current clusters
      = clusters ++ (chunkLoop rest current []).filter (fun c => 2 ≤ c.length) := by
  induction rest with
  | nil =>
    intro current clusters
    by_cases hlen : 2 ≤ current.length
    · simp [groupLoop, chunkLoop, List.filter, hlen]
    · simp [groupLoop, chunkLoop, List.filter, hlen]
  | cons i r ih =>
    intro current clusters
    by_cases hgap : (detY i - clusterLastY current).natAbs < 80
    · simp only [groupLoop, chunkLoop, if_pos hgap]
      exact ih _ _
    · simp only [groupLoop, chunkLoop, if_neg hgap]
      rw [chunkLoop_acc r [i] ([] ++ [current])]
      by_cases hlen : 2 ≤ current.length
      · rw [if_pos hlen, ih [i] (clusters ++ [current])]
        simp [List.filter_append, List.filter, hlen]
      · rw [if_neg hlen, ih [i] clusters]
        simp [List.filter_append, List.filter, hlen]

/-- Claim C6: clustering sorts the detections by vertical coordinate and
adds each one to the current cluster exactly when its vertical gap to the
previous member is below 80px, starting a new cluster otherwise; a cluster
is returned only with at least 2 members.  The general conjunct equates the
source loop (which filters while emitting) with the claimed description
(chunk by the gap rule, then filter by size); the concrete conjuncts are the
clusters for y = 10, 50, 140, 160 and the dropped lone detection at y = 500. -/
theorem C6_clustering :
    (∀ icons : List Detection,
      group_icons_into_battles icons = clusters_claimed icons) ∧
    group_icons_into_battles [(0, 10, 200), (0, 50, 200), (0, 140, 200), (0, 160, 200)]
      = [[(0, 10, 200), (0, 50, 200)], [(0, 140, 200), (0, 160, 200)]] ∧
    group_icons_into_battles [(0, 500, 200)] = [] := by
  refine ⟨fun icons => ?_, by decide, by decide⟩
  unfold group_icons_into_battles clusters_claimed
  cases sortByY icons with
  | nil => rfl
  | cons f rest => simpa using groupLoop_eq_filter_chunk rest [f] []

/-! ## Claim C7 -/

theorem verify_detection_some_imp (click : Point) (attempts : List (Option Point)) (p : Point)
    (h : verify_detection click attempts = some p) :
    some p ∈ attempts ∧ distSq click p ≤ 2500 := by
  induction attempts with
  | nil => simp [verify_detection] at h
  | cons a rest ih =>
    cases a with
    | none =>
      rw [verify_detection] at h
      have := ih h
      exact ⟨by simp [this.1], this.2⟩
    | some q =>
      rw [verify_detection] at h
      split_ifs at h with hd
      · have := ih h
        exact ⟨by simp [this.1], this.2⟩
      · cases h
        exact ⟨by simp, by omega⟩

theorem verify_detection_all_fail (click : Point) (attempts : List (Option Point))
    (h : ∀ q : Point, some q ∈ attempts → 2500 < distSq click q) :
    verify_detection click attempts = none := by
  induction attempts with
  | nil => rfl
  | cons a rest ih =>
    cases a with
    | none =>
      rw [verify_detection]
      exact ih (fun q hq => h q (by simp [hq]))
    | some q =>
      rw [verify_detection, if_pos (h q (by simp))]
      exact ih (fun q' hq' => h q' (by simp [hq']))

/-- Claim C7: verification re-runs detection once per attempt (default 2,
one list entry per attempt) and accepts only a recheck candidate within 50px
Euclidean distance of the original point, the boundary included: the source
rejects on distance > 50, that is squared distance > 2500.  The recheck at
(130, 140) against (100, 100) sits at distance exactly 50 and is accepted;
(200, 200) is rejected on both attempts; and when no attempt confirms the
result is none, an ordinary negative outcome of the total function. -/
theorem C7_verification :
    verify_detection (100, 100) [some (130, 140), none] = some (130, 140) ∧
    distSq (100, 100) (130, 140) = 2500 ∧
    verify_detection (100, 100) [some (200, 200), some (200, 200)] = none ∧
    (∀ (click : Point) (attempts : List (Option Point)) (p : Point),
      verify_detection click attempts = some p →
      some p ∈ attempts ∧ distSq click p ≤ 2500) ∧
    (∀ (click : Point) (attempts : List (Option Point)),
      (∀ q : Point, some q ∈ attempts → 2500 < distSq click q) →
      verify_detection click attempts = none) :=
  ⟨by decide, by decide, by decide, verify_detection_some_imp, verify_detection_all_fail⟩

/-- Witness for C7: both quantified conjuncts applied at concrete inputs. -/
theorem C7_verification_witness :
    (some ((130, 140) : Point) ∈ [some ((130, 140) : Point), none] ∧
      distSq (100, 100) (130, 140) ≤ 2500) ∧
    verify_detection (100, 100) [none] = none :=
  ⟨C7_verification.2.2.2.1 (100, 100) [some (130, 140), none] (130, 140) (by decide),
   C7_verification.2.2.2.2 (100, 100) [none] (fun q hq => by simp at hq)⟩

/-! ## Claim C9 -/

/-- Claim C9 counterexample: a component with contour area exactly 150 and a
10 x 10 bounding box.  The claim keeps it (closed interval endpoint); the
source tests 150 < area and rejects it. -/
theorem C9_counterexample :
    component_yields_detection 150 10 10 = false ∧
    component_yields_detection_claimed 150 10 10 = true := by
  constructor
  · decide
  · unfold component_yields_detection_claimed
    norm_num

/-- Claim C9 (corrected): a connected component yields a Detection exactly
when its area lies in the open interval (150, 3000) and its bounding-box
aspect ratio in the open interval (0.5, 2.5); components at an interval
endpoint are rejected, not kept, because both source comparisons are strict. -/
theorem C9_component_filter_strict (area : ℚ) (bw bh : Int) :
    component_yields_detection area bw bh = true ↔
      (150 < area ∧ area < 3000 ∧ 0 < bh ∧
       0.5 < (bw : ℚ) / (bh : ℚ) ∧ (bw : ℚ) / (bh : ℚ) < 2.5) := by
  unfold component_yields_detection
  by_cases h1 : 150 < area ∧ area < 3000
  · rw [if_pos h1]
    by_cases hb : (0 : Int) < bh
    · simp only [if_pos hb, decide_eq_true_eq]
      tauto
    · simp only [if_neg hb, decide_eq_true_eq]
      constructor
      · rintro ⟨h05, -⟩
        norm_num at h05
      · rintro ⟨-, -, hb', -⟩
        exact absurd hb' hb
  · rw [if_neg h1]
    simp only [Bool.false_eq_true, false_iff]
    tauto

/-! ## Claim C4 -/

/-- Claim C4: one iteration of the per-expansion scan, for an expansion that
opens.  A found candidate sets last_battle_location to (current difficulty,
series, n) and returns the click position at once, with the progress store
(hence every checked_count) untouched; an empty scan calls mark_checked on
(difficulty, series, n) and continues with ordinal n + 1. -/
theorem C4_scan_step (env : Env) (st : BotState) (series_name : String) (n : Int) (fuel : Nat)
    (hopen : env.opens st.current_difficulty series_name n = true) :
    (∀ pos : Point, env.scan st.current_difficulty series_name n = some pos →
      scanLoop env series_name st n (fuel + 1) =
        ({ st with last_battle_location := some (st.current_difficulty, series_name, n) },
         some pos) ∧
      (scanLoop env series_name st n (fuel + 1)).1.progress = st.progress) ∧
    (env.scan st.current_difficulty series_name n = none →
      scanLoop env series_name st n (fuel + 1) =
        scanLoop env series_name
          { st with progress := mark_checked st.progress st.current_difficulty series_name n }
          (n + 1) fuel) := by
  constructor
  · intro pos hscan
    have heq : scanLoop env series_name st n (fuel + 1) =
        ({ st with last_battle_location := some (st.current_difficulty, series_name, n) },
         some pos) := by
      simp only [scanLoop, hopen, hscan, if_true]
    exact ⟨heq, by rw [heq]⟩
  · intro hscan
    simp only [scanLoop, hopen, hscan, if_true]

/-- Witness for C4: both branches at concrete inputs, using the everywhere
finding and the everywhere empty environments. -/
theorem C4_scan_step_witness :
    (scanLoop envFind "A" stFresh 1 1 =
      ({ stFresh with last_battle_location := some ("beginner", "A", 1) }, some (5, 6)) ∧
     (scanLoop envFind "A" stFresh 1 1).1.progress = stFresh.progress) ∧
    scanLoop envEmpty "A" stFresh 1 1 =
      scanLoop envEmpty "A"
        { stFresh with progress := mark_checked stFresh.progress "beginner" "A" 1 } 2 0 :=
  ⟨(C4_scan_step envFind stFresh "A" 1 0 (by decide)).1 (5, 6) rfl,
   (C4_scan_step envEmpty stFresh "A" 1 0 (by decide)).2 rfl⟩

/-! ## Claim C5 -/

theorem resume_sync (st : BotState) (d s : String) :
    ({ (if st.current_difficulty = d then st else { st with current_difficulty := d }) with
        current_series := s } : BotState) =
      { st with current_difficulty := d, current_series := s } := by
  by_cases h : st.current_difficulty = d
  · rw [if_pos h]
    cases st
    simp_all
  · rw [if_neg h]

theorem resume_phase_found (env : Env) (st : BotState) (d s : String) (e : Int) (pos : Point)
    (hopen : env.opens d s e = true) (hscan : env.scan d s e = some pos) :
    resume_phase env st d s e =
      ({ st with current_difficulty := d, current_series := s }, some pos) := by
  cases st with
  | mk p cd cs loc =>
    by_cases h : cd = d
    · subst h
      simp [resume_phase, hopen, hscan]
    · simp [resume_phase, hopen, hscan, h]

theorem resume_phase_empty (env : Env) (st : BotState) (d s : String) (e : Int)
    (hopen : env.opens d s e = true) (hscan : env.scan d s e = none) :
    resume_phase env st d s e =
      ({ st with
          current_difficulty := d
          current_series := s
          progress := mark_checked st.progress d s e
          last_battle_location := none }, none) := by
  cases st with
  | mk p cd cs loc =>
    by_cases h : cd = d
    · subst h
      simp [resume_phase, hopen, hscan]
    · simp [resume_phase, hopen, hscan, h]

/-- Claim C5: with a saved ResumeLocation (d, s, e) and the resume flag of
the next invocation set, run re-enters exactly that expansion (the scan is
taken at (d, s, e), independently of get_start_position and of the store
contents).  A found candidate is returned at once with the store untouched
and the ResumeLocation still set; an empty scan marks (d, s, e) checked,
clears the ResumeLocation and falls through to the normal search.  The last
conjunct is the exhaustion scenario: when e is the next sequential ordinal
and also the catalog total, the series is reported exhausted exactly after
the resumed visit finds nothing. -/
theorem C5_resume_protocol (env : Env) (st : BotState) (d s : String) (e : Int)
    (hloc : st.last_battle_location = some (d, s, e))
    (hopen : env.opens d s e = true) :
    (∀ pos : Point, env.scan d s e = some pos →
      run env true st =
        ({ st with current_difficulty := d, current_series := s }, RunResult.found pos) ∧
      (run env true st).1.progress = st.progress ∧
      (run env true st).1.last_battle_location = some (d, s, e)) ∧
    (env.scan d s e = none →
      run env true st =
        run_main env true
          { st with
              current_difficulty := d
              current_series := s
              progress := mark_checked st.progress d s e
              last_battle_location := none }) ∧
    (∀ pos : Point, env.scan d s e = some pos → ∀ total : Int,
      is_series_exhausted (run env true st).1.progress d s total =
        is_series_exhausted st.progress d s total) ∧
    (env.scan d s e = none → e = progressGet st.progress (get_key d s) + 1 →
      is_series_exhausted (resume_phase env st d s e).1.progress d s e = true ∧
      (resume_phase env st d s e).1.last_battle_location = none) := by
  have hrun : run env true st =
      (let r := resume_phase env st d s e
       match r.2 with
       | some pos => (r.1, RunResult.found pos)
       | none => run_main env true r.1) := by
    unfold run
    rw [hloc]
  refine ⟨fun pos hscan => ?_, fun hscan => ?_, fun pos hscan total => ?_, fun hscan hseq => ?_⟩
  · have heq : run env true st =
        ({ st with current_difficulty := d, current_series := s }, RunResult.found pos) := by
      rw [hrun, resume_phase_found env st d s e pos hopen hscan]
    refine ⟨heq, by rw [heq], by rw [heq]; exact hloc⟩
  · rw [hrun, resume_phase_empty env st d s e hopen hscan]
  · have heq : run env true st =
        ({ st with current_difficulty := d, current_series := s }, RunResult.found pos) := by
      rw [hrun, resume_phase_found env st d s e pos hopen hscan]
    rw [heq]
  · rw [resume_phase_empty env st d s e hopen hscan]
    refine ⟨?_, rfl⟩
    simp only [is_series_exhausted]
    rw [mark_checked_get_self, if_pos hseq]
    simp

/-- Witness for C5: state stResume saves location (expert, B, 1); with the
everywhere finding environment the invocation returns the candidate with the
location kept, and the exhaustion of expert B is unchanged. -/
theorem C5_resume_protocol_witness :
    (run envFind true stResume =
      ({ stResume with current_difficulty := "expert", current_series := "B" },
       RunResult.found (5, 6)) ∧
     (run envFind true stResume).1.progress = stResume.progress ∧
     (run envFind true stResume).1.last_battle_location = some ("expert", "B", 1)) ∧
    (is_series_exhausted (run envFind true stResume).1.progress "expert" "B" 1 =
      is_series_exhausted stResume.progress "expert" "B" 1) :=
  ⟨(C5_resume_protocol envFind stResume "expert" "B" 1 rfl (by decide)).1 (5, 6) rfl,
   (C5_resume_protocol envFind stResume "expert" "B" 1 rfl (by decide)).2.2.1 (5, 6) rfl 1⟩

/-! ## Claim C8 -/

theorem get_key_A_ne_B (d d' : String) : get_key d "A" ≠ get_key d' "B" := by
  intro h
  have h2 : (get_key d "A").data = (get_key d' "B").data := congrArg String.data h
  simp only [get_key, String.data_append] at h2
  have h3 := congrArg List.getLast? h2
  simp [List.getLast?_append] at h3

theorem progressBounded_mark (p : Progress) (d s : String) (n : Int)
    (hp : progressBounded p)
    (hs : (s = "A" ∧ n ≤ 11) ∨ (s = "B" ∧ n ≤ 1)) :
    progressBounded (mark_checked p d s n) := by
  intro d'
  rcases hs with ⟨rfl, hn⟩ | ⟨rfl, hn⟩
  · refine ⟨?_, ?_⟩
    · by_cases hk : get_key d' "A" = get_key d "A"
      · rw [hk, mark_checked_get_self]
        split
        · exact hn
        · exact (hp d).1
      · rw [mark_checked_get_other _ _ _ _ _ hk]
        exact (hp d').1
    · rw [mark_checked_get_other _ _ _ _ _ (Ne.symm (get_key_A_ne_B d d'))]
      exact (hp d').2
  · refine ⟨?_, ?_⟩
    · rw [mark_checked_get_other _ _ _ _ _ (get_key_A_ne_B d' d)]
      exact (hp d').1
    · by_cases hk : get_key d' "B" = get_key d "B"
      · rw [hk, mark_checked_get_self]
        split
        · exact hn
        · exact (hp d).2
      · rw [mark_checked_get_other _ _ _ _ _ hk]
        exact (hp d').2

theorem scanLoop_mono (env : Env) (series_name : String) :
    ∀ (fuel : Nat) (st : BotState) (n : Int) (k : String),
      progressGet st.progress k ≤
        progressGet (scanLoop env series_name st n fuel).1.progress k := by
  intro fuel
  induction fuel with
  | zero => intro st n k; exact le_refl _
  | succ f ih =>
    intro st n k
    cases ho : env.opens st.current_difficulty series_name n with
    | false =>
      simp only [scanLoop, ho, Bool.false_eq_true, if_false]
      exact le_trans (mark_checked_mono _ _ _ _ _) (ih _ _ _)
    | true =>
      cases hs : env.scan st.current_difficulty series_name n with
      | none =>
        simp only [scanLoop, ho, hs, if_true]
        exact le_trans (mark_checked_mono _ _ _ _ _) (ih _ _ _)
      | some pos =>
        simp only [scanLoop, ho, hs, if_true]
        exact le_refl _

theorem scanLoop_bounded (env : Env) (series_name : String) :
    ∀ (fuel : Nat) (st : BotState) (n : Int),
      progressBounded st.progress →
      locationOk st.last_battle_location →
      ((series_name = "A" ∧ n + (fuel : Int) ≤ 12) ∨
       (series_name = "B" ∧ n + (fuel : Int) ≤ 2)) →
      progressBounded (scanLoop env series_name st n fuel).1.progress ∧
      locationOk (scanLoop env series_name st n fuel).1.last_battle_location := by
  intro fuel
  induction fuel with
  | zero => intro st n hp hl _; exact ⟨hp, hl⟩
  | succ f ih =>
    intro st n hp hl hb
    have hn : (series_name = "A" ∧ n ≤ 11) ∨ (series_name = "B" ∧ n ≤ 1) := by
      rcases hb with ⟨h, hb⟩ | ⟨h, hb⟩
      · left; refine ⟨h, ?_⟩; push_cast at hb; omega
      · right; refine ⟨h, ?_⟩; push_cast at hb; omega
    have hb' : (series_name = "A" ∧ (n + 1) + (f : Int) ≤ 12) ∨
        (series_name = "B" ∧ (n + 1) + (f : Int) ≤ 2) := by
      rcases hb with ⟨h, hb⟩ | ⟨h, hb⟩
      · left; refine ⟨h, ?_⟩; push_cast at hb; omega
      · right; refine ⟨h, ?_⟩; push_cast at hb; omega
    cases ho : env.opens st.current_difficulty series_name n with
    | false =>
      simp only [scanLoop, ho, Bool.false_eq_true, if_false]
      exact ih _ _ (progressBounded_mark _ _ _ _ hp hn) hl hb'
    | true =>
      cases hs : env.scan st.current_difficulty series_name n with
      | none =>
        simp only [scanLoop, ho, hs, if_true]
        exact ih _ _ (progressBounded_mark _ _ _ _ hp hn) hl hb'
      | some pos =>
        simp only [scanLoop, ho, hs, if_true]
        refine ⟨hp, ?_⟩
        intro d' s' e' he
        have h1 : s' = series_name ∧ e' = n := by
          cases he
          exact ⟨rfl, rfl⟩
        rcases h1 with ⟨rfl, rfl⟩
        exact hn

theorem scan_series_mono (env : Env) (series_name : String) (count : Int) (st : BotState)
    (k : String) :
    progressGet st.progress k ≤
      progressGet (scan_series_for_rewards env series_name count st).1.progress k := by
  by_cases hc : count < get_start_position st.progress st.current_difficulty series_name
  · simp only [scan_series_for_rewards, if_pos hc]
    exact le_refl _
  · simp only [scan_series_for_rewards, if_neg hc]
    exact scanLoop_mono env series_name _ st _ k

theorem scan_series_bounded (env : Env) (series_name : String) (count : Int) (st : BotState)
    (hp : progressBounded st.progress) (hl : locationOk st.last_battle_location)
    (hcount : (series_name = "A" ∧ count = 11) ∨ (series_name = "B" ∧ count = 1)) :
    progressBounded (scan_series_for_rewards env series_name count st).1.progress ∧
    locationOk (scan_series_for_rewards env series_name count st).1.last_battle_location := by
  by_cases hc : count < get_start_position st.progress st.current_difficulty series_name
  · simp only [scan_series_for_rewards, if_pos hc]
    exact ⟨hp, hl⟩
  · simp only [scan_series_for_rewards, if_neg hc]
    apply scanLoop_bounded env series_name _ st _ hp hl
    have hge : get_start_position st.progress st.current_difficulty series_name ≤ count := by
      omega
    have htn : ((count + 1 - get_start_position st.progress st.current_difficulty
        series_name).toNat : Int) =
        count + 1 - get_start_position st.progress st.current_difficulty series_name := by
      rw [Int.toNat_of_nonneg]
      omega
    rcases hcount with ⟨h, rfl⟩ | ⟨h, rfl⟩
    · left; refine ⟨h, ?_⟩; omega
    · right; refine ⟨h, ?_⟩; omega

theorem check_difficulty_mono (env : Env) (st : BotState) (k : String) :
    progressGet st.progress k ≤
      progressGet (check_difficulty_all_series env st).1.progress k := by
  unfold check_difficulty_all_series
  by_cases hab : (is_series_exhausted st.progress st.current_difficulty "A" 11 &&
      is_series_exhausted st.progress st.current_difficulty "B" 1) = true
  · rw [if_pos hab]
  · rw [if_neg hab]
    by_cases ha : is_series_exhausted st.progress st.current_difficulty "A" 11 = true
    · simp only [if_pos ha]
      by_cases hb : is_series_exhausted st.progress st.current_difficulty "B" 1 = true
      · simp only [if_pos hb]
        exact le_refl _
      · simp only [if_neg hb]
        exact scan_series_mono env "B" 1 _ k
    · simp only [if_neg ha]
      split
      · exact scan_series_mono env "A" 11 _ k
      · by_cases hb : is_series_exhausted st.progress st.current_difficulty "B" 1 = true
        · simp only [if_pos hb]
          exact scan_series_mono env "A" 11 _ k
        · simp only [if_neg hb]
          exact le_trans
            (scan_series_mono env "A" 11 { st with current_series := "A" } k)
            (scan_series_mono env "B" 1
              { (scan_series_for_rewards env "A" 11
                  { st with current_series := "A" }).1 with current_series := "B" } k)

theorem check_difficulty_bounded (env : Env) (st : BotState)
    (hp : progressBounded st.progress) (hl : locationOk st.last_battle_location) :
    progressBounded (check_difficulty_all_series env st).1.progress ∧
    locationOk (check_difficulty_all_series env st).1.last_battle_location := by
  unfold check_difficulty_all_series
  by_cases hab : (is_series_exhausted st.progress st.current_difficulty "A" 11 &&
      is_series_exhausted st.progress st.current_difficulty "B" 1) = true
  · rw [if_pos hab]
    exact ⟨hp, hl⟩
  · rw [if_neg hab]
    by_cases ha : is_series_exhausted st.progress st.current_difficulty "A" 11 = true
    · simp only [if_pos ha]
      by_cases hb : is_series_exhausted st.progress st.current_difficulty "B" 1 = true
      · simp only [if_pos hb]
        exact ⟨hp, hl⟩
      · simp only [if_neg hb]
        exact scan_series_bounded env "B" 1 _ hp hl (Or.inr ⟨rfl, rfl⟩)
    · simp only [if_neg ha]
      have hA := scan_series_bounded env "A" 11 { st with current_series := "A" }
        hp hl (Or.inl ⟨rfl, rfl⟩)
      split
      · exact hA
      · by_cases hb : is_series_exhausted st.progress st.current_difficulty "B" 1 = true
        · simp only [if_pos hb]
          exact hA
        · simp only [if_neg hb]
          exact scan_series_bounded env "B" 1 _ hA.1 hA.2 (Or.inr ⟨rfl, rfl⟩)

theorem difficulty_loop_mono (env : Env) :
    ∀ (ds : List String) (st : BotState) (k : String),
      progressGet st.progress k ≤
        progressGet (difficulty_loop env ds st).1.progress k := by
  intro ds
  induction ds with
  | nil => intro st k; exact le_refl _
  | cons d rest ih =>
    intro st k
    simp only [difficulty_loop]
    split
    · rename_i pos heq
      have h1 : progressGet st.progress k ≤
          progressGet (check_difficulty_all_series env
            (if d = st.current_difficulty then st
             else { st with current_difficulty := d })).1.progress k := by
        by_cases hd : d = st.current_difficulty
        · rw [if_pos hd]
          exact check_difficulty_mono env st k
        · rw [if_neg hd]
          exact check_difficulty_mono env { st with current_difficulty := d } k
      exact h1
    · have h1 : progressGet st.progress k ≤
          progressGet (check_difficulty_all_series env
            (if d = st.current_difficulty then st
             else { st with current_difficulty := d })).1.progress k := by
        by_cases hd : d = st.current_difficulty
        · rw [if_pos hd]
          exact check_difficulty_mono env st k
        · rw [if_neg hd]
          exact check_difficulty_mono env { st with current_difficulty := d } k
      exact le_trans h1 (ih _ k)

theorem difficulty_loop_bounded (env : Env) :
    ∀ (ds : List String) (st : BotState),
      progressBounded st.progress → locationOk st.last_battle_location →
      progressBounded (difficulty_loop env ds st).1.progress ∧
      locationOk (difficulty_loop env ds st).1.last_battle_location := by
  intro ds
  induction ds with
  | nil => intro st hp hl; exact ⟨hp, hl⟩
  | cons d rest ih =>
    intro st hp hl
    have h1 : progressBounded (check_difficulty_all_series env
          (if d = st.current_difficulty then st
           else { st with current_difficulty := d })).1.progress ∧
        locationOk (check_difficulty_all_series env
          (if d = st.current_difficulty then st
           else { st with current_difficulty := d })).1.last_battle_location := by
      by_cases hd : d = st.current_difficulty
      · rw [if_pos hd]
        exact check_difficulty_bounded env st hp hl
      · rw [if_neg hd]
        exact check_difficulty_bounded env { st with current_difficulty := d } hp hl
    simp only [difficulty_loop]
    split
    · exact h1
    · exact ih _ h1.1 h1.2

theorem run_main_mono (env : Env) (resume_from_battle : Bool) (st : BotState) (k : String) :
    progressGet st.progress k ≤
      progressGet (run_main env resume_from_battle st).1.progress k := by
  unfold run_main
  by_cases hf : is_fully_exhausted st.progress = true
  · rw [if_pos hf]
  · rw [if_neg hf]
    cases hq : env.quick with
    | some pos => exact le_refl _
    | none =>
      simp only []
      exact difficulty_loop_mono env _ st k

theorem run_main_bounded (env : Env) (resume_from_battle : Bool) (st : BotState)
    (hp : progressBounded st.progress) (hl : locationOk st.last_battle_location) :
    progressBounded (run_main env resume_from_battle st).1.progress ∧
    locationOk (run_main env resume_from_battle st).1.last_battle_location := by
  unfold run_main
  by_cases hf : is_fully_exhausted st.progress = true
  · rw [if_pos hf]
    exact ⟨hp, hl⟩
  · rw [if_neg hf]
    cases hq : env.quick with
    | some pos => exact ⟨hp, hl⟩
    | none =>
      simp only []
      exact difficulty_loop_bounded env _ st hp hl

theorem resume_phase_mono (env : Env) (st : BotState) (d s : String) (e : Int) (k : String) :
    progressGet st.progress k ≤
      progressGet (resume_phase env st d s e).1.progress k := by
  cases st with
  | mk p cd cs loc =>
    by_cases hd : cd = d
    · subst hd
      cases ho : env.opens cd s e with
      | false => simp [resume_phase, ho]
      | true =>
        cases hs : env.scan cd s e with
        | none =>
          simp [resume_phase, ho, hs]
          exact mark_checked_mono _ _ _ _ _
        | some pos => simp [resume_phase, ho, hs]
    · cases ho : env.opens d s e with
      | false => simp [resume_phase, ho, hd]
      | true =>
        cases hs : env.scan d s e with
        | none =>
          simp [resume_phase, ho, hs, hd]
          exact mark_checked_mono _ _ _ _ _
        | some pos => simp [resume_phase, ho, hs, hd]

theorem resume_phase_bounded (env : Env) (st : BotState) (d s : String) (e : Int)
    (hp : progressBounded st.progress)
    (hse : (s = "A" ∧ e ≤ 11) ∨ (s = "B" ∧ e ≤ 1)) :
    progressBounded (resume_phase env st d s e).1.progress ∧
    ((resume_phase env st d s e).2 = none →
      locationOk (resume_phase env st d s e).1.last_battle_location) := by
  cases st with
  | mk p cd cs loc =>
    by_cases hd : cd = d
    · subst hd
      cases ho : env.opens cd s e with
      | false =>
        simp [resume_phase, ho]
        exact ⟨hp, fun d' s' e' h => by simp at h⟩
      | true =>
        cases hs : env.scan cd s e with
        | none =>
          simp [resume_phase, ho, hs]
          exact ⟨progressBounded_mark _ _ _ _ hp hse, fun d' s' e' h => by simp at h⟩
        | some pos =>
          simp [resume_phase, ho, hs]
          exact hp
    · cases ho : env.opens d s e with
      | false =>
        simp [resume_phase, ho, hd]
        exact ⟨hp, fun d' s' e' h => by simp at h⟩
      | true =>
        cases hs : env.scan d s e with
        | none =>
          simp [resume_phase, ho, hs, hd]
          exact ⟨progressBounded_mark _ _ _ _ hp hse, fun d' s' e' h => by simp at h⟩
        | some pos =>
          simp [resume_phase, ho, hs, hd]
          exact hp

theorem run_mono (env : Env) (resume_from_battle : Bool) (st : BotState) (k : String) :
    progressGet st.progress k ≤ progressGet (run env resume_from_battle st).1.progress k := by
  cases resume_from_battle with
  | false =>
    simp only [run]
    exact run_main_mono env false st k
  | true =>
    cases hloc : st.last_battle_location with
    | none =>
      simp only [run, hloc]
      exact run_main_mono env true st k
    | some l =>
      obtain ⟨d, s, e⟩ := l
      simp only [run, hloc]
      cases hr : (resume_phase env st d s e).2 with
      | some pos =>
        simp only [hr]
        exact resume_phase_mono env st d s e k
      | none =>
        simp only [hr]
        exact le_trans (resume_phase_mono env st d s e k)
          (run_main_mono env true (resume_phase env st d s e).1 k)

theorem resume_phase_loc (env : Env) (st : BotState) (d s : String) (e : Int) :
    (resume_phase env st d s e).1.last_battle_location = none ∨
    (resume_phase env st d s e).1.last_battle_location = st.last_battle_location := by
  cases st with
  | mk p cd cs loc =>
    by_cases hd : cd = d
    · subst hd
      cases ho : env.opens cd s e with
      | false => simp [resume_phase, ho]
      | true =>
        cases hs : env.scan cd s e with
        | none => simp [resume_phase, ho, hs]
        | some pos => simp [resume_phase, ho, hs]
    · cases ho : env.opens d s e with
      | false => simp [resume_phase, ho, hd]
      | true =>
        cases hs : env.scan d s e with
        | none => simp [resume_phase, ho, hs, hd]
        | some pos => simp [resume_phase, ho, hs, hd]

theorem run_bounded (env : Env) (resume_from_battle : Bool) (st : BotState)
    (h : stateBounded st) : stateBounded (run env resume_from_battle st).1 := by
  obtain ⟨hp, hl⟩ := h
  cases resume_from_battle with
  | false =>
    simp only [run]
    exact run_main_bounded env false st hp hl
  | true =>
    cases hloc : st.last_battle_location with
    | none =>
      simp only [run, hloc]
      exact run_main_bounded env true st hp hl
    | some l =>
      obtain ⟨d, s, e⟩ := l
      simp only [run, hloc]
      have hse := hl d s e hloc
      have hrb := resume_phase_bounded env st d s e hp hse
      have hlr : locationOk (resume_phase env st d s e).1.last_battle_location := by
        rcases resume_phase_loc env st d s e with h1 | h1
        · rw [h1]
          intro d' s' e' hh
          simp at hh
        · rw [h1]
          exact hl
      cases hr : (resume_phase env st d s e).2 with
      | some pos =>
        simp only [hr]
        exact ⟨hrb.1, hlr⟩
      | none =>
        simp only [hr]
        exact run_main_bounded env true _ hrb.1 hlr

/-- Claim C8 counterexample: reset_progress is a store operation of the
source (the claim cites it), and running it after mark_checked lowers a
checked_count from 1 back to 0, so checked_count is not non-decreasing
across every sequence of store operations. -/
theorem C8_counterexample :
    progressGet (mark_checked default_progress "intermediate" "A" 1)
      (get_key "intermediate" "A") = 1 ∧
    progressGet (reset_progress (mark_checked default_progress "intermediate" "A" 1))
      (get_key "intermediate" "A") = 0 ∧
    ¬ (1 : Int) ≤ 0 := by decide

/-- Claim C8 (corrected): every checked_count is monotonically non-decreasing
under mark_checked and under whole orchestrator traversals (which never call
reset_progress); reset_progress, excluded, sets all counts back to 0.  From
any state satisfying the bound invariant, in particular the fresh session
state, every state reachable by traversal invocations keeps every
checked_count at most the catalog size of its key (A: 11, B: 1). -/
theorem C8_monotone_and_bounded :
    (∀ (p : Progress) (d s : String) (n : Int) (k : String),
      progressGet p k ≤ progressGet (mark_checked p d s n) k) ∧
    (∀ (env : Env) (resume_from_battle : Bool) (st : BotState) (k : String),
      progressGet st.progress k ≤
        progressGet (run env resume_from_battle st).1.progress k) ∧
    (∀ (env : Env) (resume_from_battle : Bool) (st : BotState),
      stateBounded st → stateBounded (run env resume_from_battle st).1) ∧
    stateBounded stFresh :=
  ⟨fun p d s n k => mark_checked_mono p d s n k,
   fun env r st k => run_mono env r st k,
   fun env r st h => run_bounded env r st h,
   ⟨fun d => ⟨by simp [stFresh, progressGet], by simp [stFresh, progressGet]⟩,
    fun d s e h => by simp [stFresh] at h⟩⟩

/-- Witness for C8: one full traversal from the fresh state with the
everywhere empty environment, applying both quantified conjuncts with their
hypotheses discharged. -/
theorem C8_monotone_and_bounded_witness :
    stateBounded (run envEmpty false stFresh).1 ∧
    progressGet stFresh.progress (get_key "intermediate" "A") ≤
      progressGet (run envEmpty false stFresh).1.progress (get_key "intermediate" "A") :=
  ⟨C8_monotone_and_bounded.2.2.1 envEmpty false stFresh C8_monotone_and_bounded.2.2.2,
   C8_monotone_and_bounded.2.1 envEmpty false stFresh (get_key "intermediate" "A")⟩
